import Mathlib

/-!
Verification of the GDPy Worker / Driver subsystem.

This file gives a shallow embedding, in Lean 4, of the trajectory-stitching,
checkpoint/restart, convergence, batching, content-hashing and retrieval logic
of the GDPy repository (files `GDPy/computation/driver.py`,
`GDPy/computation/asedriver.py`, `GDPy/computation/worker/drive.py`,
`GDPy/computation/lammps.py`, `src/gdpx/reactor/string/vasp.py`), and proves
or refutes the specification claims about it.

Real numbers appearing in the Python code (cells, positions, forces) are
modelled by rationals, so every comparison stays decidable and executable.
-/

namespace GDPy

/-- Frames of a trajectory.  A frame models one `ase.Atoms` snapshot as it
appears in a driver's trajectory file: `geomId` abstracts the geometric
payload (cell/positions/symbols), `forces` is the flattened force array
(after constraints are applied, as `get_forces(apply_constraint=True)`
returns), and `step`, `error`, `wdir` model the corresponding
`atoms.info` entries. -/
structure Frame where
  geomId : Nat := 0
  forces : List ℚ := []
  step : Int := 0
  error : Option String := none
  wdir : Nat := 0
  deriving DecidableEq

/-- Step stamping of `AseDriver.read_trajectory`: the Python loop
`for step, atoms in enumerate(traj_frames): atoms.info["step"] = int(step)`,
generalised to an arbitrary starting index for easy induction. -/
def setStepInfoFrom (n : Nat) : List Frame → List Frame
  | [] => []
  | a :: rest => { a with step := (n : Int) } :: setStepInfoFrom (n + 1) rest

/-- Step stamping starting at zero, as `read_trajectory` performs it. -/
def setStepInfo (frames : List Frame) : List Frame :=
  setStepInfoFrom 0 frames

/-- Concatenation of the preserved restart segments, each with its final
frame skipped (`read(backup_fpath, index=":-1")` in
`AseDriver.read_trajectory`), followed by the current segment read in full
(`read(self.directory/self.xyz_fname, index=":")`). -/
def stitchSegments (backups : List (List Frame)) (current : List Frame) : List Frame :=
  (backups.map List.dropLast).flatten ++ current

/-- Model of `AseDriver.read_trajectory` (asedriver.py, lines 464-525).
The Python code returns an empty trajectory unless the current segment's
file exists and is non-empty; otherwise it stitches the preserved backup
segments in order, skipping the last frame of each, appends the current
segment, and stamps contiguous `step` info starting at 0. -/
def ase_read_trajectory (backups : List (List Frame)) (current : List Frame) : List Frame :=
  if current.isEmpty then [] else setStepInfo (stitchSegments backups current)

/-- State of one driver working directory: whether the directory exists,
the preserved restart segments (`0000.run/`, `0001.run/`, ... or the
`gbak.N.*` files, oldest first) and the current segment's trajectory. -/
structure DriverState where
  existsDir : Bool
  backups : List (List Frame)
  current : List Frame

/-- Trajectory currently readable from a driver state. -/
def driverTraj (st : DriverState) : List Frame :=
  ase_read_trajectory st.backups st.current

/-- Result of one `AbstractDriver.run` invocation: the post-state of the
working directory, the returned frame (`traj[-1]`, or none when the
trajectory came back empty) and whether the engine (`_irun`) was launched. -/
structure RunResult where
  state : DriverState
  output : Option Frame
  launched : Bool

/-- Model of `AbstractDriver.run` (driver.py, lines 230-311) with
`read_ckpt=True`.  The engine invocation `_irun` is a parameter: given the
directory state it was launched in, it returns the current segment its run
leaves behind.  Control flow follows the source: if the directory does not
exist, create it and run from scratch; else if the system changed, clean up
(which deletes the `removed_fnames`, i.e. the current segment, but keeps
the numbered restart directories) and rerun; else if `read_convergence`
holds on the stitched trajectory, return its last frame without launching;
else `_save_checkpoint` moves the current segment into a new numbered
restart directory, `_cleanup` runs, and the engine is relaunched. -/
def driverRun (conv : List Frame → Bool) (engine : DriverState → List Frame)
    (systemChanged : Bool) (st : DriverState) : RunResult :=
  if st.existsDir = false then
    let st1 : DriverState := ⟨true, st.backups, st.current⟩
    let st2 : DriverState := ⟨true, st1.backups, engine st1⟩
    ⟨st2, (driverTraj st2).getLast?, true⟩
  else if systemChanged then
    let st1 : DriverState := ⟨true, st.backups, []⟩
    let st2 : DriverState := ⟨true, st1.backups, engine st1⟩
    ⟨st2, (driverTraj st2).getLast?, true⟩
  else if conv (driverTraj st) then
    ⟨st, (driverTraj st).getLast?, false⟩
  else
    let st1 : DriverState := ⟨true, st.backups ++ [st.current], []⟩
    let st2 : DriverState := ⟨true, st1.backups, engine st1⟩
    ⟨st2, (driverTraj st2).getLast?, true⟩

/-- Convergence-relevant slice of a `DriverSetting` (driver.py, lines 42-111):
the task name, the step budget and the force threshold. -/
structure ConvSetting where
  task : String
  steps : Int
  fmax : ℚ

/-- Maximum absolute force of a frame, `np.max(np.fabs(atoms.get_forces(...)))`.
On the empty force list the fold returns 0 (NumPy would raise; convergence is
only ever read on frames holding at least one force component). -/
def maxAbsForce (a : Frame) : ℚ :=
  a.forces.foldl (fun m x => max m |x|) 0

/-- Model of `AbstractDriver.read_convergence` (driver.py, lines 385-441).
`force_converged` is the engine's own convergence flag
(`read_force_convergence`, true when the driver has no such reader).
The `NotImplementedError` raised on an unknown task is modelled by `none`. -/
def read_convergence (ignore_convergence : Bool) (setting : ConvSetting)
    (traj_frames : List Frame) (force_converged : Bool) : Option Bool :=
  if ignore_convergence then some true
  else
    let nframes := traj_frames.length
    let conv? : Option Bool :=
      if 0 < nframes then
        if 0 < setting.steps then
          match traj_frames.getLast? with
          | some last =>
            if setting.task = "min" then
              some (decide (maxAbsForce last ≤ setting.fmax) ||
                    decide (setting.steps ≤ last.step + 1))
            else if setting.task = "md" then
              some (decide (setting.steps ≤ last.step + 1))
            else none
          | none => none
        else some (decide (nframes = 1))
      else some false
    conv?.map (fun c => c && force_converged)

/-- Tolerance `1e-8` used by `compare_atoms` in worker/drive.py. -/
def tol8 : ℚ := 1 / 100000000

/-- Structures handed to the Worker: the completed 3x3 cell (row-major, nine
rationals), periodic-boundary flags, ordered chemical symbols, flattened
positions, and the `atoms.info` entries the Worker reads (`confid`, `step`,
`wdir`) together with arbitrary further metadata. -/
structure AtomsObj where
  cell : List ℚ
  pbc : List Bool
  symbols : List String
  positions : List ℚ
  infoConfid : Option Int := none
  infoStep : Option Int := none
  infoWdir : Option String := none
  infoExtra : List (String × String) := []
  deriving DecidableEq

/-- Sum of componentwise differences, `np.sum(x1 - x2)` for same-shaped
arrays. -/
def sumDiff (xs ys : List ℚ) : ℚ :=
  (List.zipWith (fun a b => a - b) xs ys).sum

/-- Model of `compare_atoms` (worker/drive.py, lines 44-65), exactly as the
source computes it: the *signed aggregate* `np.sum(c1 - c2)` of the cell and
position differences is compared against `1e-8`, and the symbol sequences are
compared for equality. -/
def compare_atoms (a1 a2 : AtomsObj) : Bool :=
  if tol8 ≤ sumDiff a1.cell a2.cell then false
  else if a1.symbols ≠ a2.symbols then false
  else if tol8 ≤ sumDiff a1.positions a2.positions then false
  else true

/-- Minimal canonical copy of a structure: cell, PBC, symbols and positions,
with `atoms.info` discarded (`copy_minimal_frames` in worker/drive.py). -/
structure MinimalAtoms where
  cell : List ℚ
  pbc : List Bool
  symbols : List String
  positions : List ℚ
  deriving DecidableEq

/-- Projection to the minimal copy built inside `copy_minimal_frames`. -/
def minimalOf (a : AtomsObj) : MinimalAtoms :=
  ⟨a.cell, a.pbc, a.symbols, a.positions⟩

/-- Model of `copy_minimal_frames` (worker/drive.py, lines 67-89): the
geometry-only copies, plus the side table of `(confid, step, wdir)` read from
each structure's info with the source's defaults `-1`, `-1`, `"null"`. -/
def copy_minimal_frames (prev_frames : List AtomsObj) :
    List MinimalAtoms × List (Int × Int × String) :=
  (prev_frames.map minimalOf,
   prev_frames.map (fun a =>
     (a.infoConfid.getD (-1), a.infoStep.getD (-1), a.infoWdir.getD "null")))

/-- Content hash computed by `DriverBasedWorker._preprocess`: the MD5 of the
canonical XYZ file written from the minimal copies with the fixed column
order `symbols, positions, move_mask`.  The hash function itself is kept
abstract as a parameter; the file content, hence the hash input, is fully
determined by the list of minimal copies. -/
def struId (md5 : List MinimalAtoms → String) (frames : List AtomsObj) : String :=
  md5 (copy_minimal_frames frames).1

/-- Geometric agreement of two input structures: equal cell, PBC flags,
symbols and positions (their `info` may differ arbitrarily). -/
def sameGeometry (a b : AtomsObj) : Prop :=
  a.cell = b.cell ∧ a.pbc = b.pbc ∧ a.symbols = b.symbols ∧ a.positions = b.positions

instance (a b : AtomsObj) : Decidable (sameGeometry a b) := by
  unfold sameGeometry
  infer_instance

/-- Working-directory name of the form `cand{gid}` assigned by
`DriverBasedWorker._prepare_batches`.  The name is modelled by its numeric
global id, since the rendering `gid` to the string `cand{gid}` is injective. -/
structure CandName where
  gid : Nat
  deriving DecidableEq

/-- Name `cand{i}` of the working directory of the structure with global
id `i`. -/
def candName (i : Nat) : CandName := ⟨i⟩

/-- One row of the JobDatabase, as `DriverBasedWorker.run` inserts it.  The
stored `gdir` string `"{uid}-group-{ig}"` and the batch name `"group-{ig}"`
are modelled by the numeric `uid` and `groupNumber`, since both renderings
are injective; `md5` is the content hash of the input structure batch. -/
structure BatchRecord where
  uid : Nat
  md5 : String
  groupNumber : Nat
  wdirNames : List CandName
  queued : Bool
  deriving DecidableEq

/-- Model of `DriverBasedWorker._split_groups` (worker/drive.py, lines
139-152): `ngroups = floor(nframes / batchsize)`, the boundary list
`[0, B, 2B, ..., ngroups*B]`, extended by `nframes` when the last boundary
falls short; returns `(starts, ends)`. -/
def _split_groups (batchsize nframes : Nat) : List Nat × List Nat :=
  let ngroups := nframes / batchsize
  let gi0 := (List.range (ngroups + 1)).map (fun i => i * batchsize)
  let gi := if gi0.getLastD 0 ≠ nframes then gi0 ++ [nframes] else gi0
  (gi.dropLast, gi.tail)

/-- Batches produced by `DriverBasedWorker._prepare_batches` (worker/drive.py,
lines 224-258) on a fresh database, where `start_confid = 0` and the cached
info table numbers the structures `0 .. nframes-1`: each batch is the list of
working-directory names `wdirs[x]` for `x` in `range(s, e)`. -/
def prepare_batches_fresh (nframes batchsize : Nat) : List (List CandName) :=
  let wdirs := (List.range nframes).map candName
  let se := _split_groups batchsize nframes
  (List.zip se.1 se.2).map
    (fun p => (List.range' p.1 (p.2 - p.1)).map (fun x => wdirs.getD x ⟨0⟩))

/-- Skip test of `DriverBasedWorker.run`: the batch name must occur among the
queued records' batch names *and* the identifier among the queued records'
hashes — two independent membership tests over the whole database, as in
`if batch_name in queued_names and identifier in queued_frames`. -/
def skipTest (db : List BatchRecord) (identifier : String) (ig : Nat) : Bool :=
  ((db.filter (fun q => q.queued)).map (fun q => q.groupNumber)).contains ig &&
  ((db.filter (fun q => q.queued)).map (fun q => q.md5)).contains identifier

/-- Record inserted for a non-skipped batch: `{uid, md5, gdir, group_number,
wdir_names, queued=True}`. -/
def mkRecord (identifier : String) (uid : Nat → Nat) (p : Nat × List CandName) :
    BatchRecord :=
  ⟨uid p.1, identifier, p.1, p.2, true⟩

/-- Outcome of `DriverBasedWorker.run`: the database contents afterwards and
the group numbers of the batches for which `_irun` (the scheduler
submission) was invoked. -/
structure WorkerRunOutcome where
  db : List BatchRecord
  submitted : List Nat
  deriving DecidableEq

/-- Model of the submission loop of `DriverBasedWorker.run` (worker/drive.py,
lines 260-307).  The queued names and hashes are computed from the database
once, before the loop; each batch is skipped when the two membership tests
succeed, and otherwise `_irun` runs and a fresh record is inserted. -/
def worker_run (db : List BatchRecord) (identifier : String) (uid : Nat → Nat)
    (batches : List (List CandName)) : WorkerRunOutcome :=
  (batches.enum).foldl
    (fun acc p =>
      if skipTest db identifier p.1 then acc
      else ⟨acc.db ++ [mkRecord identifier uid p], acc.submitted ++ [p.1]⟩)
    ⟨db, []⟩

/-- Row of the JobDatabase as `retrieve` and `inspect` see it; `gdir`
models the job name string, again by an injective numeric id. -/
structure JobRecord where
  gdir : Nat
  wdirNames : List Nat
  finished : Bool
  retrieved : Bool
  deriving DecidableEq

/-- Modelled from the spec: `AbstractWorker._get_unretrieved_jobs`, whose
defining file (`GDPy/computation/worker/worker.py`) is not among the
sources.  Per spec section 4.3.3, `retrieve` without `include_retrieved`
reads the records that are finished and not yet retrieved. -/
def _get_unretrieved_jobs (db : List JobRecord) : List JobRecord :=
  db.filter (fun r => r.finished && !r.retrieved)

/-- Modelled from the spec: `AbstractWorker._get_finished_jobs`, whose
defining file is not among the sources.  Per spec section 4.3.3, with
`include_retrieved` all finished records are read. -/
def _get_finished_jobs (db : List JobRecord) : List JobRecord :=
  db.filter (fun r => r.finished)

/-- Placeholder frame used for the `traj_frames[0]` access of
`_read_results`; it carries no error marker. -/
def defaultFrame : Frame := {}

/-- Error marker of the first frame of a trajectory, `traj_frames[0].info.get("error")`;
the empty trajectory carries no marker. -/
def firstError (traj : List Frame) : Option String :=
  (traj.headD defaultFrame).error

/-- Stamping of `wdir` info performed by `_iread_results` on every frame it
reads from a working directory. -/
def stampWdir (w : Nat) (frames : List Frame) : List Frame :=
  frames.map (fun a => { a with wdir := w })

/-- Outcome of `DriverBasedWorker._read_results`: the kept trajectories and
the logged error strings. -/
structure ReadOutcome where
  results : List (List Frame)
  loggedErrors : List String
  deriving DecidableEq

/-- Model of the sifting loop of `DriverBasedWorker._read_results`
(worker/drive.py, lines 427-494, trajectory mode): a trajectory whose first
frame carries `info["error"]` is logged and *not* appended to the results;
error-free trajectories are appended in order. -/
def _read_results (trajOf : Nat → List Frame) (wdirs : List Nat) : ReadOutcome :=
  (wdirs.map (fun w => stampWdir w (trajOf w))).foldl
    (fun acc traj =>
      match firstError traj with
      | some e => ⟨acc.results, acc.loggedErrors ++ [e]⟩
      | none => ⟨acc.results ++ [traj], acc.loggedErrors⟩)
    ⟨[], []⟩

/-- Outcome of `DriverBasedWorker.retrieve`. -/
structure RetrieveOutcome where
  db : List JobRecord
  results : List (List Frame)
  loggedErrors : List String
  deriving DecidableEq

/-- Model of `DriverBasedWorker.retrieve` (worker/drive.py, lines 371-425,
normal mode): select the unretrieved (or all finished) records, read the
trajectories of all their working directories through `_read_results`, then
mark every selected record `retrieved=True` — whether or not its
trajectories were sifted out as errored. -/
def worker_retrieve (db : List JobRecord) (trajOf : Nat → List Frame)
    (ignore_retrieved : Bool) : RetrieveOutcome :=
  let unretrieved :=
    if ignore_retrieved then _get_unretrieved_jobs db else _get_finished_jobs db
  let wdirs := (unretrieved.map (fun r => r.wdirNames)).flatten
  let res := _read_results trajOf wdirs
  let db2 := db.map (fun r =>
    if (unretrieved.map (fun s => s.gdir)).contains r.gdir then
      { r with retrieved := true }
    else r)
  ⟨db2, res.results, res.loggedErrors⟩

/-- Line of a `vasp.out` file as `VaspStringReactor.read_convergence` scans
it: `stepMatch` is the step number when the line matches the `"N F="`
pattern of `read_vaspout`, and `hasAccuracyFlag` records whether the line
contains `"reached required accuracy"`. -/
structure VaspOutLine where
  stepMatch : Option Nat := none
  hasAccuracyFlag : Bool := false
  deriving DecidableEq

/-- Model of `read_vaspout` (reactor/string/vasp.py, lines 58-74): the
maximum over `[0]` extended with every matched step number. -/
def read_vaspout (lines : List VaspOutLine) : Nat :=
  (0 :: lines.filterMap (fun l => l.stepMatch)).foldl max 0

/-- Convergence-relevant settings of the string reactor. -/
structure NebSetting where
  fmax : ℚ
  steps : Nat

/-- Observable state of a string-reactor working directory: the climbing
image's maximum absolute force in the last optimiser step, and the
`vasp.out` file when present. -/
structure VaspNebState where
  climbMaxForce : ℚ
  vaspoutExists : Bool
  lines : List VaspOutLine

/-- Modelled from the spec: `AbstractStringReactor.read_convergence`, whose
defining file (`src/gdpx/reactor/string/string.py`) is not among the
sources.  Per spec section 4.4, the base criterion is that the climbing
image's maximum absolute force is at most `fmax`. -/
def base_read_convergence (setting : NebSetting) (st : VaspNebState) : Bool :=
  decide (st.climbMaxForce ≤ setting.fmax)

/-- Model of `VaspStringReactor.read_convergence` (reactor/string/vasp.py,
lines 213-239): start from the base criterion; when `vasp.out` exists,
override to converged if the maximum step reached the step budget, and
again if any line carries the accuracy flag. -/
def vasp_string_read_convergence (setting : NebSetting) (st : VaspNebState) : Bool :=
  let converged := base_read_convergence setting st
  if st.vaspoutExists then
    let steps := read_vaspout st.lines
    let converged := if setting.steps ≤ steps then true else converged
    let converged := if st.lines.any (fun l => l.hasAccuracyFlag) then true else converged
    converged
  else converged

/-- Outcome of one `LmpDriver.run` call over calculator-parameter state `P`
and caller-structure state `A`: the calculator parameters after the call,
the caller's atoms object after the call, the returned frame, and whether
the call ended in an exception (`AssertionError`) instead of returning. -/
structure LmpOutcome (P A : Type) where
  calcParams : P
  callerAtoms : A
  result : Option Frame
  raised : Bool

/-- Model of `LmpDriver.run` (lammps.py, lines 243-306).  The input structure
is copied (`atoms = atoms_.copy()`), the old parameters are deep-copied, then
`self.calc.set(**run_params)` installs the run parameters (`runParams` is the
resulting parameter state).  `engineOk` is the `converged` flag obtained from
`_is_finished` (false also when the launch raised `OSError`), and `lastFrame`
the last cached trajectory frame when one exists.  On success the parameters
are restored and the last frame returned; otherwise the
`assert converged and ...` statement raises *before* the restore, leaving
the run parameters installed. -/
def lmp_run (P A : Type) (runParams : P) (engineOk : Bool)
    (lastFrame : Option Frame) (params0 : P) (atoms0 : A) : LmpOutcome P A :=
  if engineOk && lastFrame.isSome then
    ⟨params0, atoms0, lastFrame, false⟩
  else
    ⟨runParams, atoms0, none, true⟩

/-! Concrete instances used by counterexamples and witnesses. -/

/-- Minimisation setting with a step budget of 10 and `fmax = 0.05`. -/
def c5Setting : ConvSetting := ⟨"min", 10, 1 / 20⟩

/-- Frame whose maximum absolute force is 1 and whose step info is 9. -/
def c5Frame : Frame := { forces := [1], step := 9 }

/-- One-hydrogen structure with the identity cell. -/
def exA : AtomsObj :=
  { cell := [1, 0, 0, 0, 1, 0, 0, 0, 1], pbc := [true, true, true],
    symbols := ["H"], positions := [0, 0, 0] }

/-- Same structure with the first cell row replaced by `(0,1,0)`: two cell
entries differ from `exA` by one whole unit, in opposite directions. -/
def exB : AtomsObj := { exA with cell := [0, 1, 0, 0, 1, 0, 0, 0, 1] }

/-- Half of the `1e-8` tolerance. -/
def exTiny : ℚ := 1 / 200000000

/-- Structure whose cell entries are all `0.5e-8`. -/
def exC : AtomsObj := { exA with cell := List.replicate 9 exTiny }

/-- Structure with the all-zero cell. -/
def exD : AtomsObj := { exA with cell := List.replicate 9 0 }

/-- Structure whose cell differs from the all-zero cell by 5 in one entry. -/
def exF : AtomsObj := { exA with cell := [5, 0, 0, 0, 0, 0, 0, 0, 0] }

/-- Database holding two queued records: hash `A` in group 0 and hash `B` in
group 1. -/
def c3db : List BatchRecord := [⟨1, "A", 0, [⟨0⟩], true⟩, ⟨2, "B", 1, [⟨1⟩], true⟩]

/-- Database holding one finished, unretrieved job owning working
directory 7. -/
def c8db : List JobRecord := [⟨0, [7], true, false⟩]

/-- Trajectory reader: working directory 7 holds a single frame marked with
an SCF error. -/
def c8traj : Nat → List Frame :=
  fun w => if w = 7 then [{ error := some "Unconverged SCF at cand7." }] else []

/-- Reactor setting with `fmax = 0.05` and a step budget of 100. -/
def nebSet : NebSetting := ⟨1 / 20, 100⟩

/-- Reactor directory state: climbing-image force 1 (far above `fmax`), with
a `vasp.out` holding the accuracy flag. -/
def nebSt : VaspNebState := ⟨1, true, [{ hasAccuracyFlag := true }]⟩

/-- Convergence reader used by the checkpoint-restart witness: a trajectory
of two or more frames counts as converged. -/
def convW : List Frame → Bool := fun l => decide (2 ≤ l.length)

/-- Engine used by the checkpoint-restart witness: every launch writes the
same two frames. -/
def engineW : DriverState → List Frame := fun _ => [{}, { geomId := 1 }]

/-- Hash function used by the content-addressing witness. -/
def md5W : List MinimalAtoms → String := fun l => toString l.length

/-- Input batch carrying an extra info entry. -/
def fsW1 : List AtomsObj :=
  [{ cell := List.replicate 9 0, pbc := [true, true, true], symbols := ["H"],
     positions := [0, 0, 0], infoExtra := [("tag", "x")] }]

/-- Same geometry as `fsW1` with entirely different info. -/
def fsW2 : List AtomsObj :=
  [{ cell := List.replicate 9 0, pbc := [true, true, true], symbols := ["H"],
     positions := [0, 0, 0], infoConfid := some 5 }]

/-- Backup segments used by the stitching witness. -/
def bw1 : List (List Frame) := [[{ geomId := 0 }, { geomId := 1 }]]

/-- Current segment used by the stitching witness. -/
def cw1 : List Frame := [{ geomId := 2 }]

/-! Theorems. -/

/-- Step stamping preserves the length of a trajectory. -/
theorem setStepInfoFrom_length (n : Nat) (l : List Frame) :
    (setStepInfoFrom n l).length = l.length := by
  induction l generalizing n with
  | nil => rfl
  | cons a l ih => simp [setStepInfoFrom, ih]

/-- Step stamping leaves the geometric payload of every frame unchanged. -/
theorem setStepInfoFrom_map_geomId (n : Nat) (l : List Frame) :
    (setStepInfoFrom n l).map Frame.geomId = l.map Frame.geomId := by
  induction l generalizing n with
  | nil => rfl
  | cons a l ih => simp [setStepInfoFrom, ih]

/-- Step stamping writes the consecutive integers starting at the given
index into the `step` info of the frames. -/
theorem setStepInfoFrom_map_step (n : Nat) (l : List Frame) :
    (setStepInfoFrom n l).map Frame.step = (List.range' n l.length).map Int.ofNat := by
  induction l generalizing n with
  | nil => rfl
  | cons a l ih => simp [setStepInfoFrom, List.range'_succ, ih]

/-- Length of the concatenation of the backup segments with their last
frames dropped, when every segment is non-empty. -/
theorem dropLast_flatten_length (L : List (List Frame)) (h : ∀ s ∈ L, s ≠ []) :
    ((L.map List.dropLast).flatten).length + L.length = (L.map List.length).sum := by
  induction L with
  | nil => rfl
  | cons s L ih =>
    have hs : 1 ≤ s.length := List.length_pos.mpr (h s (List.mem_cons_self s L))
    have ih2 := ih (fun t ht => h t (List.mem_cons_of_mem s ht))
    simp only [List.map_cons, List.flatten_cons, List.length_append,
      List.length_dropLast, List.length_cons, List.sum_cons] at *
    omega

/-- C1.  With `m` non-empty preserved restart segments and a non-empty
current segment, `read_trajectory` returns the concatenation of the
preserved segments each with its last frame skipped, followed by the full
current segment (up to the step restamping), its length plus `m` equals the
sum of all segment lengths, and its frames carry the consecutive step
values `0, 1, 2, ...`, strictly monotonically increasing from 0. -/
theorem read_trajectory_stitches_segments (backups : List (List Frame))
    (current : List Frame) (hb : ∀ s ∈ backups, s ≠ []) (hc : current ≠ []) :
    ase_read_trajectory backups current = setStepInfo (stitchSegments backups current) ∧
    (ase_read_trajectory backups current).map Frame.geomId =
      ((backups.map List.dropLast).flatten ++ current).map Frame.geomId ∧
    (ase_read_trajectory backups current).length + backups.length =
      (backups.map List.length).sum + current.length ∧
    (ase_read_trajectory backups current).map Frame.step =
      (List.range (ase_read_trajectory backups current).length).map Int.ofNat := by
  have hce : current.isEmpty = false := by
    cases current with
    | nil => exact absurd rfl hc
    | cons a l => rfl
  have hdef : ase_read_trajectory backups current =
      setStepInfo (stitchSegments backups current) := by
    unfold ase_read_trajectory
    rw [hce]
    simp
  have hflat := dropLast_flatten_length backups hb
  refine ⟨hdef, ?_, ?_, ?_⟩
  · rw [hdef]
    exact setStepInfoFrom_map_geomId 0 (stitchSegments backups current)
  · rw [hdef]
    unfold setStepInfo stitchSegments
    rw [setStepInfoFrom_length]
    simp only [List.length_append]
    omega
  · rw [hdef]
    unfold setStepInfo
    rw [setStepInfoFrom_map_step, setStepInfoFrom_length, List.range_eq_range']

/-- C1, witness at one backup segment of two frames and a one-frame current
segment. -/
theorem read_trajectory_stitches_segments_witness :
    ((∀ s ∈ bw1, s ≠ []) ∧ cw1 ≠ []) ∧
    (ase_read_trajectory bw1 cw1 = setStepInfo (stitchSegments bw1 cw1) ∧
      (ase_read_trajectory bw1 cw1).map Frame.geomId =
        ((bw1.map List.dropLast).flatten ++ cw1).map Frame.geomId ∧
      (ase_read_trajectory bw1 cw1).length + bw1.length =
        (bw1.map List.length).sum + cw1.length ∧
      (ase_read_trajectory bw1 cw1).map Frame.step =
        (List.range (ase_read_trajectory bw1 cw1).length).map Int.ofNat) :=
  ⟨⟨by decide, by decide⟩,
    read_trajectory_stitches_segments bw1 cw1 (by decide) (by decide)⟩

/-- Mapping to the minimal geometry-only copy is invariant under pointwise
geometric agreement. -/
theorem map_minimalOf_eq (fs1 fs2 : List AtomsObj)
    (h : List.Forall₂ sameGeometry fs1 fs2) :
    fs1.map minimalOf = fs2.map minimalOf := by
  induction h with
  | nil => rfl
  | cons ha hrest ih =>
    obtain ⟨h1, h2, h3, h4⟩ := ha
    simp only [List.map_cons, ih, List.cons.injEq, and_true]
    unfold minimalOf
    rw [h1, h2, h3, h4]

/-- C7.  The content hash `stru_id` computed by the Worker's preprocessing is
independent of the structures' `info`: any two input batches that agree
pointwise in cell, PBC, symbols and positions hash identically, for every
hash function of the canonical minimal representation. -/
theorem stru_id_ignores_info (md5 : List MinimalAtoms → String)
    (fs1 fs2 : List AtomsObj) (h : List.Forall₂ sameGeometry fs1 fs2) :
    struId md5 fs1 = struId md5 fs2 := by
  unfold struId copy_minimal_frames
  exact congrArg md5 (map_minimalOf_eq fs1 fs2 h)

/-- C7, witness: two one-structure batches with equal geometry and different
info hash identically. -/
theorem stru_id_ignores_info_witness :
    List.Forall₂ sameGeometry fsW1 fsW2 ∧ struId md5W fsW1 = struId md5W fsW2 := by
  have h : List.Forall₂ sameGeometry fsW1 fsW2 :=
    List.Forall₂.cons (by decide) List.Forall₂.nil
  exact ⟨h, stru_id_ignores_info md5W fsW1 fsW2 h⟩

/-- C6.  The claim that `compare_atoms(a1, a2)` returns true exactly when
cells, symbols and positions agree within `1e-8` fails on the code: the
source compares the *signed sum* `np.sum(c1 - c2)` against the tolerance.
Witnessed here: (1) two structures whose cells differ by a whole unit in two
entries compare equal because the signed differences cancel; (2) two
structures agreeing componentwise within `1e-8` compare unequal because the
nine tiny differences add up past the tolerance; (3) the predicate is not
symmetric. -/
theorem compare_atoms_signed_sum_bug :
    (compare_atoms exA exB = true ∧ exA.cell ≠ exB.cell) ∧
    (compare_atoms exC exD = false ∧
      ∀ p ∈ List.zip exC.cell exD.cell, |p.1 - p.2| < tol8) ∧
    (compare_atoms exD exF = true ∧ compare_atoms exF exD = false) := by
  refine ⟨⟨?_, by decide⟩, ⟨?_, ?_⟩, ?_, ?_⟩
  · norm_num [compare_atoms, sumDiff, exA, exB, tol8]
  · norm_num [compare_atoms, sumDiff, exC, exD, exA, tol8, exTiny, List.replicate]
  · norm_num [exC, exD, exA, tol8, exTiny, List.replicate, abs_lt]
  · norm_num [compare_atoms, sumDiff, exD, exF, exA, tol8, List.replicate]
  · norm_num [compare_atoms, sumDiff, exD, exF, exA, tol8, List.replicate]

/-- C9, counterexample.  The claim that the reactor's `read_convergence` is
true only if the climbing image's max force is at most `fmax` fails: with a
climbing-image force of 1 (far above `fmax = 0.05`) and a `vasp.out` carrying
the accuracy flag, the code reports convergence. -/
theorem neb_convergence_counter :
    vasp_string_read_convergence nebSet nebSt = true ∧
    ¬ nebSt.climbMaxForce ≤ nebSet.fmax := by
  constructor
  · norm_num [vasp_string_read_convergence, base_read_convergence, read_vaspout,
      nebSet, nebSt]
  · norm_num [nebSet, nebSt]

/-- C9, amended.  `VaspStringReactor.read_convergence` is a *disjunction*:
it returns true iff the climbing image's max force is at most `fmax`, or
`vasp.out` exists and either its maximum step number reached the step budget
or some line carries the "reached required accuracy" flag. -/
theorem neb_convergence_disjunction (setting : NebSetting) (st : VaspNebState) :
    vasp_string_read_convergence setting st = true ↔
      (st.climbMaxForce ≤ setting.fmax ∨
        (st.vaspoutExists = true ∧
          (setting.steps ≤ read_vaspout st.lines ∨
            st.lines.any (fun l => l.hasAccuracyFlag) = true))) := by
  unfold vasp_string_read_convergence base_read_convergence
  cases hex : st.vaspoutExists with
  | false => simp
  | true =>
    by_cases hacc : st.lines.any (fun l => l.hasAccuracyFlag) = true
    · simp [hacc]
    · by_cases hst : setting.steps ≤ read_vaspout st.lines
      · simp [hacc, hst]
      · simp [hacc, hst]

/-- C10, counterexample.  The claim that `run` restores the calculator's
parameters regardless of engine failure fails on `LmpDriver.run`: when the
engine does not converge (for instance after an `OSError`), the assertion
raises before the restore and the run parameters stay installed. -/
theorem lmp_run_params_not_restored :
    (lmp_run Nat Nat 2 false none 1 0).calcParams ≠ 1 ∧
    (lmp_run Nat Nat 2 false none 1 0).raised = true ∧
    (lmp_run Nat Nat 2 false none 1 0).callerAtoms = 0 := by
  decide

/-- C10, amended.  `LmpDriver.run` always leaves the caller's atoms object
unchanged (it operates on a copy); it restores the snapshotted calculator
parameters and returns the last frame when it returns normally, but when the
engine invocation fails it raises with the run parameters still installed
and returns nothing. -/
theorem lmp_run_restores_iff_returns (P A : Type) (runParams : P) (engineOk : Bool)
    (lastFrame : Option Frame) (params0 : P) (atoms0 : A) :
    (lmp_run P A runParams engineOk lastFrame params0 atoms0).callerAtoms = atoms0 ∧
    ((lmp_run P A runParams engineOk lastFrame params0 atoms0).raised = false →
      (lmp_run P A runParams engineOk lastFrame params0 atoms0).calcParams = params0 ∧
      (lmp_run P A runParams engineOk lastFrame params0 atoms0).result = lastFrame) ∧
    ((lmp_run P A runParams engineOk lastFrame params0 atoms0).raised = true →
      (lmp_run P A runParams engineOk lastFrame params0 atoms0).calcParams = runParams ∧
      (lmp_run P A runParams engineOk lastFrame params0 atoms0).result = none) := by
  unfold lmp_run
  split_ifs with h <;> simp_all

/-- C10, witness for the amended theorem at a concrete successful run. -/
theorem lmp_run_restores_iff_returns_witness :
    (lmp_run Nat Nat 2 true (some defaultFrame) 1 0).callerAtoms = 0 ∧
    ((lmp_run Nat Nat 2 true (some defaultFrame) 1 0).raised = false →
      (lmp_run Nat Nat 2 true (some defaultFrame) 1 0).calcParams = 1 ∧
      (lmp_run Nat Nat 2 true (some defaultFrame) 1 0).result = some defaultFrame) ∧
    ((lmp_run Nat Nat 2 true (some defaultFrame) 1 0).raised = true →
      (lmp_run Nat Nat 2 true (some defaultFrame) 1 0).calcParams = 2 ∧
      (lmp_run Nat Nat 2 true (some defaultFrame) 1 0).result = none) :=
  lmp_run_restores_iff_returns Nat Nat 2 true (some defaultFrame) 1 0

/-- C5, counterexample.  The claim that `min` convergence requires the last
frame's max force to be at most `fmax` fails: with max force 1 above
`fmax = 0.05` but the step budget exhausted (`step+1 = steps`), the code
reports convergence. -/
theorem read_convergence_min_step_counter :
    read_convergence false c5Setting [c5Frame] true = some true ∧
    ¬ maxAbsForce c5Frame ≤ c5Setting.fmax := by
  constructor
  · norm_num [read_convergence, c5Setting, c5Frame, maxAbsForce]
  · norm_num [c5Setting, c5Frame, maxAbsForce]

/-- C5, amended.  For a driver with positive step budget and a non-empty
trajectory, `read_convergence` returns true iff the engine's own convergence
flag holds *and*: for task `min`, the last frame's max force is at most
`fmax` *or* its step count exhausted the budget (`steps ≤ step+1`); for task
`md`, the last frame's step count exhausted the budget. -/
theorem read_convergence_characterisation (setting : ConvSetting) (front : List Frame)
    (lastF : Frame) (fc : Bool) (h2 : 0 < setting.steps) :
    (setting.task = "min" →
      (read_convergence false setting (front ++ [lastF]) fc = some true ↔
        ((maxAbsForce lastF ≤ setting.fmax ∨ setting.steps ≤ lastF.step + 1) ∧
          fc = true))) ∧
    (setting.task = "md" →
      (read_convergence false setting (front ++ [lastF]) fc = some true ↔
        (setting.steps ≤ lastF.step + 1 ∧ fc = true))) := by
  have hlast : (front ++ [lastF]).getLast? = some lastF := List.getLast?_concat _
  constructor
  · intro ht
    simp [read_convergence, hlast, h2, ht]
  · intro ht
    have hne : ¬ setting.task = "min" := by rw [ht]; decide
    simp [read_convergence, hlast, h2, ht, hne]

/-- C5, witness for the amended theorem at a concrete trajectory. -/
theorem read_convergence_characterisation_witness :
    (0 : Int) < c5Setting.steps ∧
    ((c5Setting.task = "min" →
      (read_convergence false c5Setting ([] ++ [c5Frame]) true = some true ↔
        ((maxAbsForce c5Frame ≤ c5Setting.fmax ∨ c5Setting.steps ≤ c5Frame.step + 1) ∧
          (true : Bool) = true))) ∧
     (c5Setting.task = "md" →
      (read_convergence false c5Setting ([] ++ [c5Frame]) true = some true ↔
        (c5Setting.steps ≤ c5Frame.step + 1 ∧ (true : Bool) = true)))) :=
  ⟨by decide, read_convergence_characterisation c5Setting [] c5Frame true (by decide)⟩

/-- C2.  Running the driver twice on the same directory with the system
unchanged leaves the stored trajectory length unchanged iff the first run
ended converged; when it did, the second run returns the last frame without
relaunching the engine.  The hypotheses state that a scratch launch writes
at least one frame and that a restart launch of an unconverged run makes
progress, writing its duplicated boundary frame plus at least one new one. -/
theorem run_twice_length_iff_converged (conv : List Frame → Bool)
    (engine : DriverState → List Frame)
    (hscr : engine ⟨true, [], []⟩ ≠ [])
    (hres : ∀ bs : List (List Frame), bs ≠ [] → 2 ≤ (engine ⟨true, bs, []⟩).length) :
    ((driverTraj (driverRun conv engine false
        (driverRun conv engine false ⟨false, [], []⟩).state).state).length =
      (driverTraj (driverRun conv engine false ⟨false, [], []⟩).state).length ↔
      conv (driverTraj (driverRun conv engine false ⟨false, [], []⟩).state) = true) ∧
    (conv (driverTraj (driverRun conv engine false ⟨false, [], []⟩).state) = true →
      (driverRun conv engine false
        (driverRun conv engine false ⟨false, [], []⟩).state).launched = false ∧
      (driverRun conv engine false
        (driverRun conv engine false ⟨false, [], []⟩).state).output =
        (driverTraj (driverRun conv engine false ⟨false, [], []⟩).state).getLast?) := by
  have hst1 : (driverRun conv engine false ⟨false, [], []⟩).state =
      ⟨true, [], engine ⟨true, [], []⟩⟩ := by
    unfold driverRun
    simp
  rw [hst1]
  generalize hseg : engine ⟨true, [], []⟩ = seg1 at hscr hst1 ⊢
  have htraj1 : driverTraj ⟨true, [], seg1⟩ = setStepInfo seg1 := by
    unfold driverTraj ase_read_trajectory stitchSegments
    cases seg1 with
    | nil => exact absurd rfl hscr
    | cons a l => rfl
  have hlen1 : (driverTraj ⟨true, [], seg1⟩).length = seg1.length := by
    rw [htraj1]
    exact setStepInfoFrom_length 0 seg1
  cases hconv : conv (setStepInfo seg1) with
  | true =>
    have hr2 : driverRun conv engine false ⟨true, [], seg1⟩ =
        ⟨⟨true, [], seg1⟩, (driverTraj ⟨true, [], seg1⟩).getLast?, false⟩ := by
      unfold driverRun
      simp [htraj1, hconv]
    have hst2 : (driverRun conv engine false ⟨true, [], seg1⟩).state =
        ⟨true, [], seg1⟩ := by rw [hr2]
    have hl2 : (driverRun conv engine false ⟨true, [], seg1⟩).launched = false := by
      rw [hr2]
    have ho2 : (driverRun conv engine false ⟨true, [], seg1⟩).output =
        (driverTraj ⟨true, [], seg1⟩).getLast? := by rw [hr2]
    rw [hst2, hl2, ho2]
    exact ⟨by simp [htraj1, hconv], fun h => ⟨rfl, rfl⟩⟩
  | false =>
    have h2len : 2 ≤ (engine ⟨true, [seg1], []⟩).length := hres [seg1] (by simp)
    have hne2 : engine ⟨true, [seg1], []⟩ ≠ [] := by
      intro h
      rw [h] at h2len
      simp at h2len
    have hr2 : driverRun conv engine false ⟨true, [], seg1⟩ =
        ⟨⟨true, [seg1], engine ⟨true, [seg1], []⟩⟩,
          (driverTraj ⟨true, [seg1], engine ⟨true, [seg1], []⟩⟩).getLast?, true⟩ := by
      unfold driverRun
      simp [htraj1, hconv]
    have hst2 : (driverRun conv engine false ⟨true, [], seg1⟩).state =
        ⟨true, [seg1], engine ⟨true, [seg1], []⟩⟩ := by rw [hr2]
    rw [hst2]
    generalize hs2 : engine ⟨true, [seg1], []⟩ = seg2 at h2len hne2 ⊢
    have htraj2 : driverTraj ⟨true, [seg1], seg2⟩ =
        setStepInfo (stitchSegments [seg1] seg2) := by
      unfold driverTraj ase_read_trajectory
      cases seg2 with
      | nil => exact absurd rfl hne2
      | cons a l => rfl
    have hlen2 : (driverTraj ⟨true, [seg1], seg2⟩).length =
        seg1.length - 1 + seg2.length := by
      rw [htraj2]
      unfold setStepInfo stitchSegments
      rw [setStepInfoFrom_length]
      simp
    have h1pos : 1 ≤ seg1.length := List.length_pos.mpr hscr
    constructor
    · constructor
      · intro hEq
        rw [hlen2, hlen1] at hEq
        omega
      · intro hC
        rw [htraj1, hconv] at hC
        exact absurd hC (by simp)
    · intro hC
      rw [htraj1, hconv] at hC
      exact absurd hC (by simp)

/-- C2, witness: a two-frame engine with a convergence reader demanding two
frames, so the first run converges and the second is a no-op. -/
theorem run_twice_length_iff_converged_witness :
    (engineW ⟨true, [], []⟩ ≠ [] ∧
      ∀ bs : List (List Frame), bs ≠ [] → 2 ≤ (engineW ⟨true, bs, []⟩).length) ∧
    (((driverTraj (driverRun convW engineW false
        (driverRun convW engineW false ⟨false, [], []⟩).state).state).length =
      (driverTraj (driverRun convW engineW false ⟨false, [], []⟩).state).length ↔
      convW (driverTraj (driverRun convW engineW false ⟨false, [], []⟩).state) = true) ∧
     (convW (driverTraj (driverRun convW engineW false ⟨false, [], []⟩).state) = true →
      (driverRun convW engineW false
        (driverRun convW engineW false ⟨false, [], []⟩).state).launched = false ∧
      (driverRun convW engineW false
        (driverRun convW engineW false ⟨false, [], []⟩).state).output =
        (driverTraj (driverRun convW engineW false ⟨false, [], []⟩).state).getLast?)) :=
  ⟨⟨by decide, fun bs h => by simp [engineW]⟩,
    run_twice_length_iff_converged convW engineW (by decide)
      (fun bs h => by simp [engineW])⟩

/-- Closed form of the submission fold of `worker_run`: the database grows by
one record per batch that fails the skip test, and exactly those batches are
submitted. -/
theorem worker_fold_eq (db0 : List BatchRecord) (identifier : String)
    (uid : Nat → Nat) (l : List (Nat × List CandName)) (acc : WorkerRunOutcome) :
    l.foldl
      (fun acc p =>
        if skipTest db0 identifier p.1 then acc
        else ⟨acc.db ++ [mkRecord identifier uid p], acc.submitted ++ [p.1]⟩)
      acc =
    ⟨acc.db ++ (l.filter
        (fun p => !(skipTest db0 identifier p.1))).map (mkRecord identifier uid),
      acc.submitted ++ (l.filter
        (fun p => !(skipTest db0 identifier p.1))).map (fun p => p.1)⟩ := by
  induction l generalizing acc with
  | nil => simp
  | cons p l ih =>
    cases hp : skipTest db0 identifier p.1 with
    | true => simp [List.foldl_cons, hp, ih]
    | false => simp [List.foldl_cons, hp, ih]

/-- Characterisation of the skip test as two independent existential
memberships over the queued records. -/
theorem skipTest_true_iff (db : List BatchRecord) (identifier : String) (ig : Nat) :
    skipTest db identifier ig = true ↔
      ((∃ r ∈ db, r.queued = true ∧ r.groupNumber = ig) ∧
       (∃ r ∈ db, r.queued = true ∧ r.md5 = identifier)) := by
  simp only [skipTest, Bool.and_eq_true, List.contains_iff_exists_mem_beq]
  constructor
  · rintro ⟨⟨x, hx, hbx⟩, ⟨y, hy, hby⟩⟩
    obtain ⟨r, hr, hrg⟩ := List.mem_map.mp hx
    obtain ⟨s, hs, hsm⟩ := List.mem_map.mp hy
    refine ⟨⟨r, (List.mem_filter.mp hr).1, ?_, ?_⟩, ⟨s, (List.mem_filter.mp hs).1, ?_, ?_⟩⟩
    · exact (List.mem_filter.mp hr).2
    · exact hrg.trans (eq_of_beq hbx).symm
    · exact (List.mem_filter.mp hs).2
    · exact hsm.trans (eq_of_beq hby).symm
  · rintro ⟨⟨r, hr, hrq, hrg⟩, ⟨s, hs, hsq, hsm⟩⟩
    refine ⟨⟨r.groupNumber, List.mem_map_of_mem _ (List.mem_filter.mpr ⟨hr, hrq⟩), ?_⟩,
      ⟨s.md5, List.mem_map_of_mem _ (List.mem_filter.mpr ⟨hs, hsq⟩), ?_⟩⟩
    · simp [hrg]
    · simp [hsm]

/-- Closed form of `worker_run` itself. -/
theorem worker_run_eq (db0 : List BatchRecord) (identifier : String)
    (uid : Nat → Nat) (batches : List (List CandName)) :
    worker_run db0 identifier uid batches =
      ⟨db0 ++ (batches.enum.filter
          (fun p => !(skipTest db0 identifier p.1))).map (mkRecord identifier uid),
        (batches.enum.filter
          (fun p => !(skipTest db0 identifier p.1))).map (fun p => p.1)⟩ := by
  unfold worker_run
  exact worker_fold_eq db0 identifier uid batches.enum ⟨db0, []⟩

/-- C3, counterexample.  The database holds queued records (hash A, group 0)
and (hash B, group 1).  Submitting a batch with hash B and group index 0 is
skipped — nothing inserted, nothing submitted — although no single queued
record matches both the hash and the batch index, refuting the claimed
"if and only if a record matches both" characterisation. -/
theorem worker_skip_not_per_record :
    worker_run c3db "B" (fun _ => 9) [[⟨0⟩]] = ⟨c3db, []⟩ ∧
    ¬ ∃ r ∈ c3db, r.queued = true ∧ r.md5 = "B" ∧ r.groupNumber = 0 := by
  decide

/-- C3, amended.  `Worker.run` skips a batch iff *some* queued record carries
its batch index and *some* (possibly different) queued record carries the
batch's content hash; the non-skipped batches are exactly the inserted and
submitted ones.  Consequently re-running with the identical structure list
(same hash, same batches) inserts zero new records and submits nothing. -/
theorem worker_skip_membership_and_idempotent
    (db : List BatchRecord) (identifier : String) (uid uid2 : Nat → Nat)
    (batches : List (List CandName)) :
    worker_run db identifier uid batches =
      ⟨db ++ (batches.enum.filter
          (fun p => !(skipTest db identifier p.1))).map (mkRecord identifier uid),
        (batches.enum.filter
          (fun p => !(skipTest db identifier p.1))).map (fun p => p.1)⟩ ∧
    (worker_run (worker_run db identifier uid batches).db identifier uid2 batches).db =
      (worker_run db identifier uid batches).db ∧
    (worker_run (worker_run db identifier uid batches).db identifier uid2
        batches).submitted = [] := by
  have h1 := worker_run_eq db identifier uid batches
  have hskip : ∀ p ∈ batches.enum,
      skipTest (worker_run db identifier uid batches).db identifier p.1 = true := by
    intro p hp
    rw [h1]
    by_cases h : skipTest db identifier p.1 = true
    · rw [skipTest_true_iff] at h ⊢
      obtain ⟨⟨r, hr, hq, hg⟩, ⟨s, hs, hsq, hsm⟩⟩ := h
      exact ⟨⟨r, List.mem_append_left _ hr, hq, hg⟩,
        ⟨s, List.mem_append_left _ hs, hsq, hsm⟩⟩
    · have hpf : p ∈ batches.enum.filter (fun q => !(skipTest db identifier q.1)) :=
        List.mem_filter.mpr ⟨hp, by simp [h]⟩
      have hrec := List.mem_map_of_mem (mkRecord identifier uid) hpf
      rw [skipTest_true_iff]
      exact ⟨⟨mkRecord identifier uid p, List.mem_append_right _ hrec, rfl, rfl⟩,
        ⟨mkRecord identifier uid p, List.mem_append_right _ hrec, rfl, rfl⟩⟩
  have hfilter : batches.enum.filter
      (fun p => !(skipTest (worker_run db identifier uid batches).db identifier p.1)) =
      [] := by
    rw [List.filter_eq_nil_iff]
    intro p hp
    simp [hskip p hp]
  have h2 : worker_run (worker_run db identifier uid batches).db identifier uid2 batches =
      ⟨(worker_run db identifier uid batches).db, []⟩ := by
    rw [worker_run_eq (worker_run db identifier uid batches).db identifier uid2 batches,
      hfilter]
    simp
  exact ⟨h1, by rw [h2], by rw [h2]⟩

/-- Closed form of the sifting fold of `_read_results`: the kept results are
the trajectories whose first frame carries no error, the logged errors are
the error markers of the others, each in input order. -/
theorem read_results_fold (trajs : List (List Frame)) (acc : ReadOutcome) :
    trajs.foldl
      (fun acc traj =>
        match firstError traj with
        | some e => ⟨acc.results, acc.loggedErrors ++ [e]⟩
        | none => ⟨acc.results ++ [traj], acc.loggedErrors⟩)
      acc =
    ⟨acc.results ++ trajs.filter (fun t => (firstError t).isNone),
      acc.loggedErrors ++ trajs.filterMap (fun t => firstError t)⟩ := by
  induction trajs generalizing acc with
  | nil => simp
  | cons t l ih =>
    cases he : firstError t with
    | none => simp [List.foldl_cons, he, ih, List.filter_cons, List.filterMap_cons]
    | some e => simp [List.foldl_cons, he, ih, List.filter_cons, List.filterMap_cons]

/-- Closed form of `_read_results`. -/
theorem read_results_eq (trajOf : Nat → List Frame) (wdirs : List Nat) :
    _read_results trajOf wdirs =
      ⟨(wdirs.map (fun w => stampWdir w (trajOf w))).filter
          (fun t => (firstError t).isNone),
        (wdirs.map (fun w => stampWdir w (trajOf w))).filterMap
          (fun t => firstError t)⟩ := by
  unfold _read_results
  exact read_results_fold _ ⟨[], []⟩

/-- C8, counterexample.  One finished job whose only working directory holds
a trajectory with `info.error` set: `retrieve` logs the error and marks the
record retrieved, but drops the trajectory from the returned results instead
of returning it, refuting the claim that the trajectory is still returned to
the caller. -/
theorem retrieve_drops_errored_counter :
    (worker_retrieve c8db c8traj true).results = [] ∧
    (worker_retrieve c8db c8traj true).loggedErrors = ["Unconverged SCF at cand7."] ∧
    (worker_retrieve c8db c8traj true).db = [⟨0, [7], true, true⟩] := by
  decide

/-- C8, amended.  `retrieve` reads the trajectories of every selected
(finished, unretrieved) record's working directories, returns exactly the
error-free ones in order, logs the error marker of every errored one, and
still sets `retrieved=true` on every selected record. -/
theorem retrieve_sifts_and_marks (db : List JobRecord) (trajOf : Nat → List Frame) :
    (worker_retrieve db trajOf true).results =
      (((_get_unretrieved_jobs db).map (fun r => r.wdirNames)).flatten.map
          (fun w => stampWdir w (trajOf w))).filter
        (fun t => (firstError t).isNone) ∧
    (worker_retrieve db trajOf true).loggedErrors =
      (((_get_unretrieved_jobs db).map (fun r => r.wdirNames)).flatten.map
          (fun w => stampWdir w (trajOf w))).filterMap
        (fun t => firstError t) ∧
    ∀ r ∈ _get_unretrieved_jobs db,
      { r with retrieved := true } ∈ (worker_retrieve db trajOf true).db := by
  refine ⟨?_, ?_, ?_⟩
  · simp [worker_retrieve, read_results_eq]
  · simp [worker_retrieve, read_results_eq]
  · intro r hr
    have hrdb : r ∈ db := (List.mem_filter.mp hr).1
    have hgd : ((_get_unretrieved_jobs db).map (fun s => s.gdir)).contains r.gdir
        = true := by
      rw [List.contains_iff_exists_mem_beq]
      exact ⟨r.gdir, List.mem_map_of_mem _ hr, by simp⟩
    unfold worker_retrieve
    simp only [if_true]
    refine List.mem_map.mpr ⟨r, hrdb, ?_⟩
    rw [hgd]
    simp

/-- C8, witness for the amended theorem at the concrete errored database. -/
theorem retrieve_sifts_and_marks_witness :
    (worker_retrieve c8db c8traj true).results =
      (((_get_unretrieved_jobs c8db).map (fun r => r.wdirNames)).flatten.map
          (fun w => stampWdir w (c8traj w))).filter
        (fun t => (firstError t).isNone) ∧
    (worker_retrieve c8db c8traj true).loggedErrors =
      (((_get_unretrieved_jobs c8db).map (fun r => r.wdirNames)).flatten.map
          (fun w => stampWdir w (c8traj w))).filterMap
        (fun t => firstError t) ∧
    ∀ r ∈ _get_unretrieved_jobs c8db,
      { r with retrieved := true } ∈ (worker_retrieve c8db c8traj true).db :=
  retrieve_sifts_and_marks c8db c8traj

/-- Ceiling division `(N + B - 1) / B` expressed through quotient and
remainder. -/
theorem ceil_div_eq (B N : Nat) (hB : 0 < B) :
    (N + B - 1) / B = if N % B = 0 then N / B else N / B + 1 := by
  have hdm := Nat.div_add_mod N B
  obtain ⟨m, hm⟩ : ∃ m, B * (N / B) = m := ⟨_, rfl⟩
  have hdm2 : m + N % B = N := by
    rw [← hm]
    exact hdm
  have hrB : N % B < B := Nat.mod_lt _ hB
  by_cases hr : N % B = 0
  · rw [if_pos hr]
    rcases Nat.eq_zero_or_pos N with hN | hN
    · subst hN
      simp [Nat.div_eq_of_lt (by omega : B - 1 < B)]
    · have h1 : N + B - 1 = B * (N / B) + (B - 1) := by
        rw [hm]
        omega
      rw [h1, Nat.mul_add_div hB, Nat.div_eq_of_lt (by omega : B - 1 < B), Nat.add_zero]
  · rw [if_neg hr]
    have h1 : N + B - 1 = B * (N / B + 1) + (N % B - 1) := by
      rw [Nat.mul_add, Nat.mul_one, hm]
      omega
    rw [h1, Nat.mul_add_div hB, Nat.div_eq_of_lt (by omega : N % B - 1 < B),
      Nat.add_zero]

/-- Closed form of `_split_groups`: the starts are `0, B, 2B, ...` and the
ends are the starts shifted by one block and clipped at `nframes`, one pair
per batch, with exactly `ceil(nframes / batchsize)` batches. -/
theorem split_groups_eq (B N : Nat) (hB : 0 < B) :
    _split_groups B N =
      ((List.range ((N + B - 1) / B)).map (fun i => i * B),
       (List.range ((N + B - 1) / B)).map (fun i => min ((i + 1) * B) N)) := by
  have hdm := Nat.div_add_mod N B
  obtain ⟨m, hm⟩ : ∃ m, B * (N / B) = m := ⟨_, rfl⟩
  have hdm2 : m + N % B = N := by
    rw [← hm]
    exact hdm
  have hrB : N % B < B := Nat.mod_lt _ hB
  have hqBm : N / B * B = m := by
    rw [Nat.mul_comm]
    exact hm
  have hgl : ((List.range (N / B + 1)).map (fun i => i * B)).getLastD 0 = N / B * B := by
    rw [List.range_succ, List.map_append]
    exact List.getLastD_concat _ _ _
  simp only [_split_groups]
  by_cases hr : N % B = 0
  · have hmN : m = N := by omega
    rw [hgl, hqBm, hmN, ceil_div_eq B N hB, if_pos hr]
    simp only [ne_eq, not_true_eq_false, if_false, ite_false]
    refine congrArg₂ Prod.mk ?_ ?_
    · rw [List.range_succ, List.map_append]
      exact List.dropLast_concat
    · rw [List.range_succ_eq_map, List.map_cons, List.tail_cons, List.map_map]
      apply List.map_congr_left
      intro i hi
      have hiq : i < N / B := List.mem_range.mp hi
      have hle : (i + 1) * B ≤ N := by
        have h1 : (i + 1) * B ≤ N / B * B := Nat.mul_le_mul_right B hiq
        rw [hqBm] at h1
        omega
      simp only [Function.comp]
      rw [Nat.min_eq_left hle]
  · have hmN : m < N := by omega
    rw [hgl, hqBm, ceil_div_eq B N hB, if_neg hr]
    rw [if_pos (by omega : m ≠ N)]
    have hLHS : (((List.range (N / B + 1)).map (fun i => i * B)) ++ [N]).tail =
        (List.range (N / B)).map (fun i => (i + 1) * B) ++ [N] := by
      rw [List.range_succ_eq_map, List.map_cons, List.cons_append, List.tail_cons,
        List.map_map]
      rfl
    have hRHS : (List.range (N / B + 1)).map (fun i => min ((i + 1) * B) N) =
        (List.range (N / B)).map (fun i => (i + 1) * B) ++ [N] := by
      rw [List.range_succ, List.map_append]
      refine congrArg₂ (· ++ ·) ?_ ?_
      · apply List.map_congr_left
        intro i hi
        have hiq : i < N / B := List.mem_range.mp hi
        have hle : (i + 1) * B ≤ N := by
          have h1 : (i + 1) * B ≤ N / B * B := Nat.mul_le_mul_right B hiq
          rw [hqBm] at h1
          omega
        rw [Nat.min_eq_left hle]
      · have hge : N ≤ (N / B + 1) * B := by
          have hs : (N / B + 1) * B = N / B * B + B := Nat.succ_mul _ _
          rw [hs, hqBm]
          omega
        rw [List.map_cons, List.map_nil, Nat.min_eq_right hge]
    refine congrArg₂ Prod.mk ?_ ?_
    · exact List.dropLast_concat
    · rw [hLHS, hRHS]

/-- Element lookup in the fresh working-directory name table. -/
theorem getD_map_candName (N x : Nat) (h : x < N) :
    ((List.range N).map candName).getD x ⟨0⟩ = candName x := by
  have hx : x < ((List.range N).map candName).length := by simpa using h
  rw [List.getD_eq_getElem _ _ hx, List.getElem_map, List.getElem_range]

/-- Closed form of `_prepare_batches` on a fresh database: batch `i` holds
the names `cand{x}` for `x` in the `i`-th contiguous block of size `B`
(clipped at `N`). -/
theorem prepare_batches_fresh_eq (N B : Nat) (hB : 0 < B) :
    prepare_batches_fresh N B =
      (List.range ((N + B - 1) / B)).map
        (fun i => (List.range' (i * B) (min B (N - i * B))).map candName) := by
  simp only [prepare_batches_fresh]
  rw [split_groups_eq B N hB, List.zip_map', List.map_map]
  apply List.map_congr_left
  intro i hi
  have hiK : i < (N + B - 1) / B := List.mem_range.mp hi
  have h1 : (i + 1) * B ≤ ((N + B - 1) / B) * B := Nat.mul_le_mul_right B hiK
  have h2 : ((N + B - 1) / B) * B ≤ N + B - 1 := Nat.div_mul_le_self _ _
  have h3 : 1 ≤ (N + B - 1) / B := Nat.lt_of_le_of_lt (Nat.zero_le i) hiK
  have h4 : B ≤ ((N + B - 1) / B) * B := by
    calc B = 1 * B := (Nat.one_mul B).symm
    _ ≤ ((N + B - 1) / B) * B := Nat.mul_le_mul_right B h3
  obtain ⟨mi, hmi⟩ : ∃ m, i * B = m := ⟨_, rfl⟩
  have hsucc : (i + 1) * B = mi + B := by rw [Nat.succ_mul, hmi]
  obtain ⟨mk, hmk⟩ : ∃ m, ((N + B - 1) / B) * B = m := ⟨_, rfl⟩
  rw [hmk] at h1 h2 h4
  rw [hsucc] at h1
  simp only [Function.comp]
  rw [hsucc, hmi]
  have hminB : min (mi + B) N - mi = min B (N - mi) := by omega
  rw [hminB]
  apply List.map_congr_left
  intro x hx
  have hxb := List.mem_range'_1.mp hx
  exact getD_map_candName N x (by omega)

/-- The contiguous index blocks of size `B` concatenate to an initial
segment of the naturals. -/
theorem flatten_index_blocks (B N k : Nat) :
    ((List.range k).map (fun i => List.range' (i * B) (min B (N - i * B)))).flatten =
      List.range' 0 (min (k * B) N) := by
  induction k with
  | zero => simp
  | succ k ih =>
    rw [List.range_succ, List.map_append, List.flatten_append, ih]
    simp only [List.map_cons, List.map_nil, List.flatten_cons, List.flatten_nil,
      List.append_nil]
    by_cases hkB : k * B ≤ N
    · rw [Nat.min_eq_left hkB]
      have happ := List.range'_append_1 0 (k * B) (min B (N - k * B))
      rw [Nat.zero_add] at happ
      rw [happ]
      have hs : (k + 1) * B = k * B + B := Nat.succ_mul k B
      obtain ⟨a, ha⟩ : ∃ a, k * B = a := ⟨_, rfl⟩
      rw [ha] at hkB ⊢
      rw [hs, ha]
      have hmin : min B (N - a) + a = min (a + B) N := by omega
      rw [hmin]
    · push_neg at hkB
      rw [Nat.min_eq_right (Nat.le_of_lt hkB)]
      have hs : (k + 1) * B = k * B + B := Nat.succ_mul k B
      obtain ⟨a, ha⟩ : ∃ a, k * B = a := ⟨_, rfl⟩
      rw [ha] at hkB ⊢
      rw [hs, ha]
      have h0 : min B (N - a) = 0 := by omega
      have hmin : min (a + B) N = N := by omega
      rw [h0, hmin]
      simp

/-- Concatenating all batch index blocks recovers `range N` exactly. -/
theorem flatten_blocks_full (B N : Nat) (hB : 0 < B) :
    ((List.range ((N + B - 1) / B)).map
        (fun i => List.range' (i * B) (min B (N - i * B)))).flatten =
      List.range N := by
  rw [flatten_index_blocks]
  have hKB : N ≤ ((N + B - 1) / B) * B := by
    have hdm := Nat.div_add_mod (N + B - 1) B
    have hmod : (N + B - 1) % B < B := Nat.mod_lt _ hB
    obtain ⟨m, hm⟩ : ∃ m, B * ((N + B - 1) / B) = m := ⟨_, rfl⟩
    have hdm2 : m + (N + B - 1) % B = N + B - 1 := by
      rw [← hm]
      exact hdm
    rw [Nat.mul_comm, hm]
    omega
  rw [Nat.min_eq_right hKB, List.range_eq_range']

/-- The working-directory naming is injective. -/
theorem candName_injective (x y : Nat) (h : candName x = candName y) : x = y :=
  congrArg CandName.gid h

/-- C4.  On a fresh database with batch size `B ≥ 1`, `Worker.run` over `N`
structures creates exactly `ceil(N/B)` records (none for `N = 0`), all
queued and carrying the batch hash; their `wdir_names` are the contiguous
blocks `cand{iB} .. cand{min((i+1)B,N)-1}` in input order, whose
concatenation is exactly `cand0 .. cand(N-1)` and which are pairwise
disjoint; the group numbers are `0 .. ceil(N/B)-1` in order. -/
theorem worker_run_fresh_creates_batches (N B : Nat) (identifier : String)
    (uid : Nat → Nat) (hB : 1 ≤ B) :
    (worker_run [] identifier uid (prepare_batches_fresh N B)).db.length
        = (N + B - 1) / B ∧
    (∀ r ∈ (worker_run [] identifier uid (prepare_batches_fresh N B)).db,
        r.queued = true ∧ r.md5 = identifier) ∧
    (worker_run [] identifier uid (prepare_batches_fresh N B)).db.map
        (fun r => r.wdirNames) =
      (List.range ((N + B - 1) / B)).map
        (fun i => (List.range' (i * B) (min B (N - i * B))).map candName) ∧
    ((worker_run [] identifier uid (prepare_batches_fresh N B)).db.map
        (fun r => r.wdirNames)).flatten = (List.range N).map candName ∧
    List.Pairwise (fun b1 b2 => ∀ w ∈ b1, w ∉ b2)
      ((worker_run [] identifier uid (prepare_batches_fresh N B)).db.map
        (fun r => r.wdirNames)) ∧
    (worker_run [] identifier uid (prepare_batches_fresh N B)).db.map
        (fun r => r.groupNumber) = List.range ((N + B - 1) / B) := by
  have hB0 : 0 < B := hB
  have hfilter : (prepare_batches_fresh N B).enum.filter
      (fun p => !(skipTest [] identifier p.1)) = (prepare_batches_fresh N B).enum := by
    rw [List.filter_eq_self]
    intro a ha
    rfl
  have hdb : (worker_run [] identifier uid (prepare_batches_fresh N B)).db
      = (prepare_batches_fresh N B).enum.map (mkRecord identifier uid) := by
    rw [worker_run_eq [] identifier uid (prepare_batches_fresh N B), hfilter]
    rfl
  have hlenb : (prepare_batches_fresh N B).length = (N + B - 1) / B := by
    rw [prepare_batches_fresh_eq N B hB0]
    simp
  have hw : (worker_run [] identifier uid (prepare_batches_fresh N B)).db.map
      (fun r => r.wdirNames) = prepare_batches_fresh N B := by
    rw [hdb, List.map_map]
    exact List.enum_map_snd _
  refine ⟨?_, ?_, ?_, ?_, ?_, ?_⟩
  · rw [hdb]
    simp [hlenb]
  · rw [hdb]
    intro r hr
    obtain ⟨p, hp, hpr⟩ := List.mem_map.mp hr
    rw [← hpr]
    exact ⟨rfl, rfl⟩
  · rw [hw, prepare_batches_fresh_eq N B hB0]
  · rw [hw, prepare_batches_fresh_eq N B hB0]
    have hcomp : (List.range ((N + B - 1) / B)).map
        (fun i => (List.range' (i * B) (min B (N - i * B))).map candName) =
        ((List.range ((N + B - 1) / B)).map
          (fun i => List.range' (i * B) (min B (N - i * B)))).map
            (List.map candName) := by
      rw [List.map_map]
      rfl
    rw [hcomp, ← List.map_flatten, flatten_blocks_full B N hB0]
  · rw [hw, prepare_batches_fresh_eq N B hB0, List.pairwise_map]
    refine List.Pairwise.imp ?_ (List.pairwise_lt_range _)
    intro i j hij w hwi hwj
    obtain ⟨x, hx, hxw⟩ := List.mem_map.mp hwi
    obtain ⟨y, hy, hyw⟩ := List.mem_map.mp hwj
    have hxy : x = y := candName_injective x y (hxw.trans hyw.symm)
    have hxb := List.mem_range'_1.mp hx
    have hyb := List.mem_range'_1.mp hy
    have h1 : (i + 1) * B ≤ j * B := Nat.mul_le_mul_right B hij
    have hs : (i + 1) * B = i * B + B := Nat.succ_mul i B
    obtain ⟨a, ha⟩ : ∃ a, i * B = a := ⟨_, rfl⟩
    obtain ⟨c, hc⟩ : ∃ c, j * B = c := ⟨_, rfl⟩
    rw [hs, ha, hc] at h1
    rw [ha] at hxb
    rw [hc] at hyb
    subst hxy
    omega
  · rw [hdb, List.map_map]
    have hfst : (worker_run [] identifier uid (prepare_batches_fresh N B)).db.map
        (fun r => r.groupNumber) = List.range (prepare_batches_fresh N B).length := by
      rw [hdb, List.map_map]
      exact List.enum_map_fst _
    rw [← List.map_map, ← hdb, hfst, hlenb]

/-- C4, witness at five structures and batch size two: three batches
`cand0 cand1`, `cand2 cand3`, `cand4`. -/
theorem worker_run_fresh_creates_batches_witness :
    1 ≤ 2 ∧
    ((worker_run [] "abc" (fun _ => 0) (prepare_batches_fresh 5 2)).db.length
        = (5 + 2 - 1) / 2 ∧
    (∀ r ∈ (worker_run [] "abc" (fun _ => 0) (prepare_batches_fresh 5 2)).db,
        r.queued = true ∧ r.md5 = "abc") ∧
    (worker_run [] "abc" (fun _ => 0) (prepare_batches_fresh 5 2)).db.map
        (fun r => r.wdirNames) =
      (List.range ((5 + 2 - 1) / 2)).map
        (fun i => (List.range' (i * 2) (min 2 (5 - i * 2))).map candName) ∧
    ((worker_run [] "abc" (fun _ => 0) (prepare_batches_fresh 5 2)).db.map
        (fun r => r.wdirNames)).flatten = (List.range 5).map candName ∧
    List.Pairwise (fun b1 b2 => ∀ w ∈ b1, w ∉ b2)
      ((worker_run [] "abc" (fun _ => 0) (prepare_batches_fresh 5 2)).db.map
        (fun r => r.wdirNames)) ∧
    (worker_run [] "abc" (fun _ => 0) (prepare_batches_fresh 5 2)).db.map
        (fun r => r.groupNumber) = List.range ((5 + 2 - 1) / 2)) :=
  ⟨by decide, worker_run_fresh_creates_batches 5 2 "abc" (fun _ => 0) (by decide)⟩

end GDPy
